import Mathlib

/-!
Verification development for the nano-api wrapper.

The repository wraps a chain runtime behind a small event-driven API.  We give
a shallow embedding of the wrapper's own logic: the balance cache and
reconciler, the transaction-history resolver, the consensus gate, the
transaction builder, and the self-relayed transaction bookkeeping.  External
runtime behaviour (account lookup, mempool contents, receipt/block/proof
fetches) is modelled as explicit function-valued environments; JavaScript
`Map` objects are modelled as insertion-ordered association lists; JavaScript
numbers produced by the exact minor-unit conversion are modelled as
rationals.

Sources embedded here:
- `NanoNetworkApi`: the `NanoNetworkApi` class (balance reconciler,
  transaction history resolver, public address-list wrappers);
- `NanoApiTs`: the modern `NanoApi` TypeScript class (pending-amount
  computation with the outgoing-sender filter, compat balances, account
  retrieval retry loop);
- `NanoApiV1`: the `NanoNetworkApi` TypeScript revision (transaction shape
  selection in `relayTransaction`);
- `NanoNetworkApiV0`: the early plain-JS revision (`_getAccount` fallback);
- `ConsensusGate`: the consensus-changed listener and
  `_createConsensusPromise`;
- `SelfRelay`: the self-relayed transaction hash set and the
  `_transactionAdded` handler.
-/

/-- Nimiq.Policy.satoshisToCoins: exact conversion from integer minor units
(luna) to decimal display units (NIM), scale factor 1e5. -/
def satoshisToCoins (n : Nat) : ℚ := (n : ℚ) / 100000

/-- A JavaScript `Map` with string keys, as an insertion-ordered association
list.  `set` overwrites in place (keeping insertion order) or appends. -/
abbrev JsMap (α : Type) := List (String × α)

def JsMap.get {α : Type} : JsMap α → String → Option α
  | [], _ => none
  | (k', v) :: rest, k => if k' = k then some v else JsMap.get rest k

def JsMap.set {α : Type} : JsMap α → String → α → JsMap α
  | [], k, v => [(k, v)]
  | (k', v') :: rest, k, v =>
    if k' = k then (k, v) :: rest else (k', v') :: JsMap.set rest k v

namespace NanoNetworkApi

/-- A transaction as seen in the runtime mempool. -/
structure PendingTx where
  sender : String
  recipient : String
  value : Nat
  fee : Nat
  hash : String
deriving DecidableEq

/-- The slice of the chain runtime the balance reconciler consults:
per-address account balances (in luna; `none` = no account record) and the
mempool's pending-transaction listing per address. -/
structure Runtime where
  accounts : String → Option Nat
  mempoolPendingTransactions : String → List PendingTx

/-- Source `_getPendingAmount`: sum of value+fee (in NIM) over the pending
transactions the mempool lists for the address. -/
def getPendingAmount (rt : Runtime) (address : String) : ℚ :=
  (rt.mempoolPendingTransactions address).foldl
    (fun acc tx => acc + satoshisToCoins (tx.value + tx.fee)) 0

/-- The per-address balance computed by `_getBalances`: zero when there is no
account record, else the converted on-chain balance minus the pending
amount. -/
def adjustedBalance (rt : Runtime) (address : String) : ℚ :=
  match rt.accounts address with
  | none => 0
  | some bal => satoshisToCoins bal - getPendingAmount rt address

/-- Source `_getBalances`: a map from each requested address to its adjusted
balance. -/
def getBalances (rt : Runtime) (addresses : List String) : JsMap ℚ :=
  addresses.foldl (fun m address => m.set address (adjustedBalance rt address)) []

/-- The diff loop of `_recheckBalances`: walk the freshly fetched balances;
entries equal to the cached value are dropped, changed entries are kept for
the notification and written back to the cache. -/
def recheckLoop : JsMap ℚ → List (String × ℚ) → List (String × ℚ) × JsMap ℚ
  | cache, [] => ([], cache)
  | cache, (address, balance) :: rest =>
    if cache.get address = some balance then
      recheckLoop cache rest
    else
      let res := recheckLoop (cache.set address balance) rest
      ((address, balance) :: res.1, res.2)

/-- Source `_recheckBalances` on an explicit address list: returns the notification
payload (changed entries) and the updated cache. -/
def recheckBalances (rt : Runtime) (cache : JsMap ℚ) (addresses : List String) :
    List (String × ℚ) × JsMap ℚ :=
  recheckLoop cache (getBalances rt addresses)

/-- The `if (balances.size) fire(...)` step: the notification fired by
`_recheckBalances`, or `none` when the change set is empty. -/
def recheckNotification (rt : Runtime) (cache : JsMap ℚ) (addresses : List String) :
    Option (List (String × ℚ)) :=
  let changed := (recheckBalances rt cache addresses).1
  if changed.isEmpty then none else some changed

/-- A transaction receipt: transaction hash, containing block hash, block
height. -/
structure Receipt where
  transactionHash : String
  blockHash : String
  blockHeight : Nat
deriving DecidableEq

structure BlockHeader where
  height : Nat
  hash : String
  timestamp : Nat
deriving DecidableEq

structure Block where
  header : BlockHeader
deriving DecidableEq

/-- A transaction as stored on chain (what a transactions proof returns). -/
structure ChainTx where
  sender : String
  recipient : String
  value : Nat
  fee : Nat
  data : String
  hash : String
  validityStartHeight : Nat
deriving DecidableEq

/-- The `{transaction, header}` pair built while resolving history. -/
structure TxWithHeader where
  transaction : ChainTx
  header : BlockHeader
deriving DecidableEq

/-- The consensus/network operations `_requestTransactionHistory` performs.
`requestTransactionReceipts` lists the outcome of each successive fetch
attempt (`none` = the request rejected); block and proof fetches return
`none` on failure. -/
structure Consensus where
  requestTransactionReceipts : String → List (Option (List Receipt))
  blockchainGetBlock : String → Option Block
  requestBlockProof : String → Nat → Option Block
  requestTransactionsProof : String → Block → Option (List ChainTx)

/-- Nimiq.TransactionReceiptsMessage.RECEIPTS_MAX_COUNT, the server-side page
cap on receipt listings. -/
def RECEIPTS_MAX_COUNT : Nat := 500

def firstSuccess {α : Type} : List (Option α) → Option α
  | [] => none
  | some x :: _ => some x
  | none :: rest => firstSuccess rest

/-- The receipt retry loop: attempts run at retryCounter 1, 2, 3; after the
third failed try the loop gives up. -/
def fetchReceipts (attempts : List (Option (List Receipt))) : Option (List Receipt) :=
  firstSuccess (attempts.take 3)

/-- The waits performed by the receipt retry loop: a constant 1 second after
each failed attempt. -/
def receiptRetryDelays (attempts : List (Option (List Receipt))) : List Nat :=
  ((attempts.take 3).takeWhile Option.isNone).map (fun _ => 1)

/-- Step 2b of `_requestTransactionHistory`: drop receipts below `fromHeight`
and receipts whose hash+block-hash pair matches a known receipt; keep new
receipts and reorganised ones (same hash, different block hash). -/
def filterNewReceipts (knownReceipts : JsMap String) (fromHeight : Nat)
    (receipts : List Receipt) : List Receipt :=
  receipts.filter fun r =>
    if r.blockHeight < fromHeight then false
    else if (knownReceipts.map Prod.fst).contains r.transactionHash then
      knownReceipts.get r.transactionHash != some r.blockHash
    else true

/-- The descending sort performed before resolving: recent receipts first. -/
def sortReceiptsDesc (receipts : List Receipt) : List Receipt :=
  List.insertionSort (fun a b => b.blockHeight ≤ a.blockHeight) receipts

/-- Step 3 of `_requestTransactionHistory`: walk the sorted receipts, keeping
one block request per run of equal adjacent block hashes; blocks come from
the local chain store when possible, otherwise a block proof is requested;
a failed proof leaves a `none` slot and records the receipt as unresolved. -/
def collectBlockRequests (c : Consensus) :
    List Receipt → Option String → List (Option Block) × List Receipt
  | [], _ => ([], [])
  | r :: rest, lastBlockHash =>
    if some r.blockHash = lastBlockHash then
      collectBlockRequests c rest lastBlockHash
    else
      match c.blockchainGetBlock r.blockHash with
      | some block =>
        let res := collectBlockRequests c rest (some r.blockHash)
        (some block :: res.1, res.2)
      | none =>
        match c.requestBlockProof r.blockHash r.blockHeight with
        | some block =>
          let res := collectBlockRequests c rest (some r.blockHash)
          (some block :: res.1, res.2)
        | none =>
          let res := collectBlockRequests c rest (some r.blockHash)
          (none :: res.1, r :: res.2)

/-- Step 4 of `_requestTransactionHistory`: per resolved block, request the
transactions proof restricted to the address; failures resolve to `none` and
are skipped later. -/
def resolveTxs (c : Consensus) (address : String) :
    List (Option Block) → List (Option (List TxWithHeader))
  | [] => []
  | none :: rest => resolveTxs c address rest
  | some block :: rest =>
    (match c.requestTransactionsProof address block with
     | some txs => some (txs.map fun tx => ⟨tx, block.header⟩)
     | none => none) :: resolveTxs c address rest

/-- The `reduce((flat, it) => it ? flat.concat(it) : flat, [])` pattern. -/
def flattenSkipNone {α : Type} (l : List (Option (List α))) : List α :=
  l.foldl (fun flat it => match it with | some xs => flat ++ xs | none => flat) []

structure AddrHistoryResult where
  transactions : List TxWithHeader
  removedTxHashes : List String
  unresolvedReceipts : List Receipt
deriving DecidableEq

/-- Source `_requestTransactionHistory` for a single address. -/
def requestTransactionHistoryAddr (c : Consensus) (address : String)
    (knownReceipts : JsMap String) (fromHeight : Nat) : AddrHistoryResult :=
  match fetchReceipts (c.requestTransactionReceipts address) with
  | none => ⟨[], [], []⟩
  | some receipts =>
    let knownTxHashes := knownReceipts.map Prod.fst
    let removedTxHashes :=
      if receipts.length = RECEIPTS_MAX_COUNT then []
      else knownTxHashes.filter fun h =>
        !((receipts.map fun r => r.transactionHash).contains h)
    let newReceipts := sortReceiptsDesc (filterNewReceipts knownReceipts fromHeight receipts)
    let blockResults := collectBlockRequests c newReceipts none
    let transactions := resolveTxs c address blockResults.1
    let flatTxs := flattenSkipNone transactions.reverse
    ⟨List.insertionSort (fun a b => a.header.height ≤ b.header.height) flatTxs,
     removedTxHashes, blockResults.2.reverse⟩

/-- The flattened plain transaction record returned to the caller.  (The
source reads `validityStartHeight` off the `{transaction, header}` wrapper,
where no such property exists, so the field is always absent.) -/
structure PlainTx where
  sender : String
  recipient : String
  value : ℚ
  fee : ℚ
  extraData : String
  hash : String
  blockHeight : Nat
  blockHash : String
  timestamp : Nat
  validityStartHeight : Option Nat
deriving DecidableEq

def toPlainTx (tx : TxWithHeader) : PlainTx :=
  { sender := tx.transaction.sender
    recipient := tx.transaction.recipient
    value := satoshisToCoins tx.transaction.value
    fee := satoshisToCoins tx.transaction.fee
    extraData := tx.transaction.data
    hash := tx.transaction.hash
    blockHeight := tx.header.height
    blockHash := tx.header.hash
    timestamp := tx.header.timestamp
    validityStartHeight := none }

/-- The duplicate-removal filter `indexOf(tx.hash) === index`: keep exactly
the first occurrence of each transaction hash. -/
def dedupByHash (seen : List String) : List PlainTx → List PlainTx
  | [] => []
  | tx :: rest =>
    if tx.hash ∈ seen then dedupByHash seen rest
    else tx :: dedupByHash (tx.hash :: seen) rest

structure HistoryResult where
  newTransactions : List PlainTx
  removedTransactions : List String
  unresolvedTransactions : List Receipt
deriving DecidableEq

/-- The concatenated plain transaction list before duplicate removal: the
per-address results in address order, flattened and mapped to plain
records. -/
def historyPlainConcat (c : Consensus) (addresses : List String)
    (knownReceipts : JsMap (JsMap String)) (fromHeight : Nat) : List PlainTx :=
  ((((addresses.map fun address =>
      requestTransactionHistoryAddr c address
        ((knownReceipts.get address).getD []) fromHeight).map
    fun r => r.transactions).foldl (fun flat it => flat ++ it) []).map toPlainTx)

/-- Source `requestTransactionHistory` over an address list: per-address resolution,
concatenation, mapping to plain records, duplicate removal. -/
def requestTransactionHistoryList (c : Consensus) (addresses : List String)
    (knownReceipts : JsMap (JsMap String)) (fromHeight : Nat) : HistoryResult :=
  let results := addresses.map fun address =>
    requestTransactionHistoryAddr c address
      ((knownReceipts.get address).getD []) fromHeight
  let txs := (results.map fun r => r.transactions).foldl (fun flat it => flat ++ it) []
  let removedTxs :=
    (results.map fun r => r.removedTxHashes).foldl (fun flat it => flat ++ it) []
  let unresolvedTxs :=
    (results.map fun r => r.unresolvedReceipts).foldl (fun flat it => flat ++ it) []
  let plain := txs.map toPlainTx
  ⟨dedupByHash [] plain, removedTxs, unresolvedTxs⟩

/-- The `string | string[]` argument of the public operations. -/
abbrev AddressInput : Type := String ⊕ List String

/-- The normalisation `if (!(addresses instanceof Array)) addresses =
[addresses]` at the top of each public operation. -/
def toAddressArray : AddressInput → List String
  | Sum.inl single => [single]
  | Sum.inr list => list

/-- Source `subscribe` body after normalisation: register the addresses at the
runtime and recheck their balances. -/
def subscribeList (rt : Runtime) (cache : JsMap ℚ) (addresses : List String) :
    List String × (List (String × ℚ) × JsMap ℚ) :=
  (addresses, recheckBalances rt cache addresses)

def subscribe (rt : Runtime) (cache : JsMap ℚ) (addresses : AddressInput) :
    List String × (List (String × ℚ) × JsMap ℚ) :=
  subscribeList rt cache (toAddressArray addresses)

/-- Source `getBalance` body after normalisation: fetch the balances and write each
entry into the cache; returns the fetched map and the new cache. -/
def getBalanceList (rt : Runtime) (cache : JsMap ℚ) (addresses : List String) :
    JsMap ℚ × JsMap ℚ :=
  let balances := getBalances rt addresses
  (balances, balances.foldl (fun m p => m.set p.1 p.2) cache)

def getBalance (rt : Runtime) (cache : JsMap ℚ) (addresses : AddressInput) :
    JsMap ℚ × JsMap ℚ :=
  getBalanceList rt cache (toAddressArray addresses)

def requestTransactionHistory (c : Consensus) (addresses : AddressInput)
    (knownReceipts : JsMap (JsMap String)) (fromHeight : Nat) : HistoryResult :=
  requestTransactionHistoryList c (toAddressArray addresses) knownReceipts fromHeight

end NanoNetworkApi

namespace NanoApiTs

/-- The slice of the modern client the compat-balance computation consults:
account balances (in luna) and the pending-transaction listing (`none`
models the `catch` branch of `_getPendingAmount`). -/
structure Client where
  accountBalance : String → Nat
  pendingTransactionsByAddress : String → Option (List NanoNetworkApi.PendingTx)

/-- Source `_getPendingAmount` of the modern `NanoApi` class: each pending
transaction contributes `-(value+fee)` when outgoing (sender equals the
address) and `0` when incoming; on a fetch error the result is `0`. -/
def getPendingAmount (cl : Client) (address : String) : ℚ :=
  match cl.pendingTransactionsByAddress address with
  | none => 0
  | some txs =>
    txs.foldl
      (fun acc tx =>
        acc + satoshisToCoins (tx.value + tx.fee) * (if tx.sender = address then -1 else 0))
      0

/-- Spec-side definition, following the spec's words for the Pending Debit:
the sum of value+fee (in luna) over exactly the pending transactions whose
sender is the given address. -/
def pendingDebit (txs : List NanoNetworkApi.PendingTx) (address : String) : Nat :=
  ((txs.filter fun tx => tx.sender == address).map fun tx => tx.value + tx.fee).sum

/-- The compat balance computed by `_getBalances`:
`Math.max(0, satoshisToCoins(account.balance) + pendingAmount)`. -/
def compatBalance (cl : Client) (address : String) : ℚ :=
  max 0 (satoshisToCoins (cl.accountBalance address) + getPendingAmount cl address)

/-- The compat half of the fetched balances map. -/
def compatBalancesFetched (cl : Client) (addresses : List String) : JsMap ℚ :=
  addresses.foldl (fun m address => m.set address (compatBalance cl address)) []

/-- The compat half of `_recheckBalances`: diff the fetched compat balances
against the compat cache. -/
def recheckCompat (cl : Client) (cache : JsMap ℚ) (addresses : List String) :
    List (String × ℚ) × JsMap ℚ :=
  NanoNetworkApi.recheckLoop cache (compatBalancesFetched cl addresses)

structure Account where
  balance : Nat
deriving DecidableEq

/-- The `getAccounts` retry recursion: attempt `stackHeight` is taken from
the oracle `g`; on failure the code waits `stackHeight + 1` seconds and
recurses with the incremented stack height.  `fuel` bounds the observation
window only; the source recursion has no bound.  Returns the retrieved
accounts together with the list of waits performed, or `none` when still
retrying after `fuel` attempts. -/
def getAccountsRetry (g : Nat → Option (List Account)) :
    Nat → Nat → Option (List Account × List Nat)
  | 0, _ => none
  | fuel + 1, stackHeight =>
    match g stackHeight with
    | some accounts => some (accounts, [])
    | none =>
      (getAccountsRetry g fuel (stackHeight + 1)).map fun r => (r.1, (stackHeight + 1) :: r.2)

end NanoApiTs

namespace NanoApiV1

/-- Standard UTF-8 encoding of a single character (1 to 4 bytes). -/
def utf8EncodeChar (c : Char) : List Nat :=
  let n := c.toNat
  if n < 128 then [n]
  else if n < 2048 then [192 + n / 64, 128 + n % 64]
  else if n < 65536 then [224 + n / 4096, 128 + (n / 64) % 64, 128 + n % 64]
  else [240 + n / 262144, 128 + (n / 4096) % 64, 128 + (n / 64) % 64, 128 + n % 64]

/-- Utf8Tools.stringToUtf8ByteArray: the fixed UTF-8 encoding applied to
string payloads. -/
def stringToUtf8ByteArray (s : String) : List Nat :=
  s.data.foldr (fun c acc => utf8EncodeChar c ++ acc) []

/-- The `extraData` field of a transaction input object: absent, a string,
or a byte array. -/
inductive ExtraData where
  | strPayload (s : String)
  | bytes (bs : List Nat)
deriving DecidableEq

/-- The transaction input object, restricted to the fields the shape
selection inspects. -/
structure TransactionObject where
  sender : String
  recipient : String
  value : Nat
  fee : Nat
  validityStartHeight : Nat
  extraData : Option ExtraData
  isVesting : Bool

/-- The three transaction shapes `relayTransaction` can build. -/
inductive TxShape where
  | vesting
  | extended
  | basic
deriving DecidableEq

/-- The `typeof txObj.extraData === 'string'` normalisation: string payloads
become UTF-8 bytes before classification. -/
def normalizeExtraData : Option ExtraData → Option (List Nat)
  | none => none
  | some (ExtraData.strPayload s) => some (stringToUtf8ByteArray s)
  | some (ExtraData.bytes bs) => some bs

/-- The shape selection of `relayTransaction`: vesting flag first, then
non-empty payload bytes, else a basic transfer.  Total: no combination of
inputs is rejected. -/
def classifyTransaction (txObj : TransactionObject) : TxShape :=
  if txObj.isVesting then TxShape.vesting
  else
    match normalizeExtraData txObj.extraData with
    | some bs => if bs.length > 0 then TxShape.extended else TxShape.basic
    | none => TxShape.basic

end NanoApiV1

namespace NanoNetworkApiV0

/-- The early revision's runtime view: a single account lookup that may find
no record. -/
structure Runtime where
  account : String → Option Nat

/-- Source `_getAccount`: the fallback account with balance 0. -/
def getAccountBalance (rt : Runtime) (address : String) : Nat :=
  (rt.account address).getD 0

/-- Source `_getBalance`: the account balance divided by the satoshis scale. -/
def getBalance (rt : Runtime) (address : String) : ℚ :=
  (getAccountBalance rt address : ℚ) / 100000

end NanoNetworkApiV0

namespace ConsensusGate

inductive ConsensusEvent where
  | connecting
  | syncing
  | established
deriving DecidableEq

/-- The state of the consensus gate: the id (generation) of the current
`_consensusEstablished` promise, which generations have been resolved, and
the `_isConsensusEstablished` flag. -/
structure GateState where
  gen : Nat
  resolved : Nat → Bool
  isEstablished : Bool

/-- The consensus-changed listener: on CONNECTING, the promise is replaced by
a fresh unresolved one only when consensus had been established; on
ESTABLISHED, the flag is set and the current promise's resolver runs;
SYNCING changes nothing. -/
def stepGate (s : GateState) : ConsensusEvent → GateState
  | ConsensusEvent.connecting =>
    if s.isEstablished then
      { gen := s.gen + 1, resolved := s.resolved, isEstablished := false }
    else s
  | ConsensusEvent.syncing => s
  | ConsensusEvent.established =>
    { s with
      isEstablished := true
      resolved := fun g => if g = s.gen then true else s.resolved g }

/-- The state after the constructor: one unresolved promise, consensus not
established. -/
def initGate : GateState :=
  { gen := 0, resolved := fun _ => false, isEstablished := false }

def runGate (evs : List ConsensusEvent) : GateState :=
  evs.foldl stepGate initGate

/-- A gated operation (`await this._consensusEstablished`) captures the
promise instance current at call time. -/
def awaitGate (s : GateState) : Nat := s.gen

end ConsensusGate

namespace SelfRelay

/-- The observable actions of the relay/pending handlers. -/
inductive WrapperAction where
  | recordSelfRelayed (hash : String)
  | submitTransaction (hash : String)
  | fireTransactionPending (hash : String)
  | fireTransactionRelayed (hash : String)
  | recheckBalancesFor (address : String)
deriving DecidableEq

/-- The wrapper state the handlers consult: the self-relayed hash set and the
balance cache (whose keys are the tracked sender addresses). -/
structure WrapperState where
  selfRelayedTransactionHashes : List String
  compatBalances : JsMap ℚ

/-- Source `relayTransaction`: the transaction hash is recorded in the self-relayed
set, and only then is the transaction submitted. -/
def relayTransaction (s : WrapperState) (tx : NanoNetworkApi.PendingTx) :
    WrapperState × List WrapperAction :=
  ({ s with selfRelayedTransactionHashes := tx.hash :: s.selfRelayedTransactionHashes },
   [WrapperAction.recordSelfRelayed tx.hash, WrapperAction.submitTransaction tx.hash])

/-- Source `_transactionAdded`: a pending transaction whose hash is in the
self-relayed set is ignored entirely; otherwise a balance recheck is
triggered when the sender is tracked, and the pending notification fires. -/
def transactionAdded (s : WrapperState) (tx : NanoNetworkApi.PendingTx) :
    List WrapperAction :=
  if tx.hash ∈ s.selfRelayedTransactionHashes then []
  else
    (if (s.compatBalances.map Prod.fst).contains tx.sender then
      [WrapperAction.recheckBalancesFor tx.sender]
    else []) ++ [WrapperAction.fireTransactionPending tx.hash]

/-- Source `_transactionRelayed`: the relayed notification fires unconditionally
(this is the path that announces self-originated transactions). -/
def transactionRelayed (s : WrapperState) (tx : NanoNetworkApi.PendingTx) :
    List WrapperAction :=
  (if (s.compatBalances.map Prod.fst).contains tx.sender then
    [WrapperAction.recheckBalancesFor tx.sender]
  else []) ++ [WrapperAction.fireTransactionRelayed tx.hash]

end SelfRelay

/-! Concrete fixtures used by the witnesses and counterexamples. -/

/-- A runtime with one account of 5 NIM at address x and an empty mempool. -/
def rtFixture : NanoNetworkApi.Runtime :=
  { accounts := fun a => if a = "x" then some 500000 else none
    mempoolPendingTransactions := fun _ => [] }

/-- A cache already holding the adjusted balance of address x. -/
def cacheFixture : JsMap ℚ :=
  [("x", NanoNetworkApi.adjustedBalance rtFixture "x")]

/-- A consensus environment with one receipt each for addresses a (height 10)
and b (height 5), both blocks locally available and both proofs succeeding. -/
def consensusFixture : NanoNetworkApi.Consensus :=
  { requestTransactionReceipts := fun a =>
      if a = "a" then [some [⟨"t1", "B1", 10⟩]]
      else if a = "b" then [some [⟨"t2", "B2", 5⟩]]
      else [some []]
    blockchainGetBlock := fun h =>
      if h = "B1" then some ⟨⟨10, "B1", 100⟩⟩
      else if h = "B2" then some ⟨⟨5, "B2", 50⟩⟩
      else none
    requestBlockProof := fun _ _ => none
    requestTransactionsProof := fun _ block =>
      if block.header.hash = "B1" then some [⟨"a", "r", 100000, 0, "", "t1", 1⟩]
      else some [⟨"b", "r", 200000, 0, "", "t2", 1⟩] }

/-- A one-receipt fetch result. -/
def receiptsFixture : List NanoNetworkApi.Receipt := [⟨"t1", "B1", 10⟩]

/-- A consensus environment whose receipt fetch succeeds with one receipt not
covering the known transaction hash old1. -/
def consensusFixtureRemoved : NanoNetworkApi.Consensus :=
  { requestTransactionReceipts := fun _ => [some receiptsFixture]
    blockchainGetBlock := fun _ => none
    requestBlockProof := fun _ _ => none
    requestTransactionsProof := fun _ _ => none }

/-- Two mempool transactions: one outgoing from s (2 NIM + 1 NIM fee), one
incoming to s. -/
def pendingFixture : List NanoNetworkApi.PendingTx :=
  [⟨"s", "r", 200000, 100000, "p1"⟩, ⟨"o", "s", 50000, 0, "p2"⟩]

/-- A client with a 10 NIM account at every address and the fixture mempool
for address s. -/
def clientFixture : NanoApiTs.Client :=
  { accountBalance := fun _ => 1000000
    pendingTransactionsByAddress := fun a => if a = "s" then some pendingFixture else none }

/-- A runtime with no account records at all. -/
def rtEmptyFixture : NanoNetworkApi.Runtime :=
  { accounts := fun _ => none
    mempoolPendingTransactions := fun _ => [] }

/-- An early-revision runtime with no account records. -/
def rt0Fixture : NanoNetworkApiV0.Runtime :=
  { account := fun _ => none }

/-- An account-fetch oracle that fails on every attempt. -/
def oracleAllFail : Nat → Option (List NanoApiTs.Account) := fun _ => none

/-- An account-fetch oracle that fails on attempts 0 to 4 and succeeds on
attempt 5. -/
def oracleSixthTry : Nat → Option (List NanoApiTs.Account) :=
  fun i => if i = 5 then some [] else none

/-- A wrapper state with an empty self-relayed set and no tracked address. -/
def wrapperStateFixture : SelfRelay.WrapperState :=
  { selfRelayedTransactionHashes := [], compatBalances := [] }

/-- A wrapper state that already recorded the hash h1 as self-relayed. -/
def wrapperStateWithHash : SelfRelay.WrapperState :=
  { selfRelayedTransactionHashes := ["h1"], compatBalances := [] }

/-- A pending transaction with hash h1 from sender s. -/
def pendingTxFixture : NanoNetworkApi.PendingTx :=
  { sender := "s", recipient := "r", value := 1, fee := 0, hash := "h1" }

/-- A transaction carrying both the vesting flag and a payload. -/
def txObjectFixture : NanoApiV1.TransactionObject :=
  { sender := "s", recipient := "r", value := 1, fee := 1, validityStartHeight := 0
    extraData := some (NanoApiV1.ExtraData.strPayload "hi"), isVesting := true }

/-! Helper lemmas about the JavaScript map model. -/

theorem JsMap.get_set {α : Type} (m : JsMap α) (k x : String) (v : α) :
    (m.set k v).get x = if k = x then some v else m.get x := by
  induction m with
  | nil => by_cases h : k = x <;> simp [JsMap.set, JsMap.get, h]
  | cons p rest ih =>
    obtain ⟨k', v'⟩ := p
    by_cases hk : k' = k
    · subst hk
      by_cases hx : k' = x <;> simp [JsMap.set, JsMap.get, hx]
    · by_cases hx : k' = x
      · subst hx
        have hkx : ¬ k = k' := fun h => hk h.symm
        simp [JsMap.set, JsMap.get, hk, hkx]
      · simp [JsMap.set, JsMap.get, hk, hx, ih]

theorem JsMap.mem_set {α : Type} (m : JsMap α) (k : String) (v : α)
    (p : String × α) (hp : p ∈ m.set k v) : p = (k, v) ∨ p ∈ m := by
  induction m with
  | nil => simpa [JsMap.set] using hp
  | cons q rest ih =>
    obtain ⟨k', v'⟩ := q
    by_cases hk : k' = k
    · subst hk
      rcases (by simpa [JsMap.set] using hp : p = (k', v) ∨ p ∈ rest) with h | h
      · exact Or.inl h
      · exact Or.inr (List.mem_cons_of_mem _ h)
    · rcases (by simpa [JsMap.set, hk] using hp :
          p = (k', v') ∨ p ∈ JsMap.set rest k v) with h | h
      · exact Or.inr (by simp [h])
      · rcases ih h with h' | h'
        · exact Or.inl h'
        · exact Or.inr (List.mem_cons_of_mem _ h')

/-- Entries of a map built by repeatedly `set`ting `(a, f a)` pairs lie on the
graph of `f` (or were already in the initial map). -/
theorem JsMap.mem_foldl_set {α : Type} (f : String → α) (A : List String)
    (m₀ : JsMap α) (p : String × α)
    (hp : p ∈ A.foldl (fun m a => m.set a (f a)) m₀) :
    p ∈ m₀ ∨ p.2 = f p.1 := by
  induction A generalizing m₀ with
  | nil => exact Or.inl (by simpa using hp)
  | cons a A ih =>
    rcases ih (m₀.set a (f a)) (by simpa using hp) with h | h
    · rcases JsMap.mem_set m₀ a (f a) p h with h' | h'
      · exact Or.inr (by simp [h'])
      · exact Or.inl h'
    · exact Or.inr h

theorem JsMap.get_foldl_set {α : Type} (f : String → α)
    (A : List String) (m₀ : JsMap α) (x : String) :
    (A.foldl (fun m a => m.set a (f a)) m₀).get x
      = if x ∈ A then some (f x) else m₀.get x := by
  induction A generalizing m₀ with
  | nil => simp
  | cons a A ih =>
    rw [List.foldl_cons, ih]
    by_cases hmem : x ∈ A
    · simp [hmem]
    · by_cases hax : a = x
      · subst hax
        simp [hmem, JsMap.get_set]
      · have hxa : ¬ x = a := fun h => hax h.symm
        rw [if_neg hmem, JsMap.get_set, if_neg hax,
          if_neg (by simp [List.mem_cons, hxa, hmem])]

namespace NanoNetworkApi

/-! Helper lemmas about the balance reconciliation loop. -/

theorem recheckLoop_notif_mem (f : String → ℚ) (cache : JsMap ℚ)
    (l : List (String × ℚ)) (hl : ∀ p ∈ l, p.2 = f p.1) :
    ∀ p ∈ (recheckLoop cache l).1, p ∈ l ∧ cache.get p.1 ≠ some p.2 := by
  induction l generalizing cache with
  | nil => intro p hp; simp [recheckLoop] at hp
  | cons q rest ih =>
    obtain ⟨a, b⟩ := q
    intro p hp
    by_cases hc : cache.get a = some b
    · have hrest := ih cache (fun p hp => hl p (List.mem_cons_of_mem _ hp)) p
        (by simpa [recheckLoop, hc] using hp)
      exact ⟨List.mem_cons_of_mem _ hrest.1, hrest.2⟩
    · rcases (by simpa [recheckLoop, hc] using hp :
          p = (a, b) ∨ p ∈ (recheckLoop (cache.set a b) rest).1) with h | h
      · subst h; exact ⟨List.mem_cons_self _ _, hc⟩
      · have hrest := ih (cache.set a b)
          (fun p hp => hl p (List.mem_cons_of_mem _ hp)) p h
        refine ⟨List.mem_cons_of_mem _ hrest.1, ?_⟩
        by_cases hpa : p.1 = a
        · have hb : b = f a := hl (a, b) (List.mem_cons_self _ _)
          rw [hl p (List.mem_cons_of_mem _ hrest.1), hpa, ← hb]
          exact hc
        · have := hrest.2
          rwa [JsMap.get_set, if_neg (fun h => hpa h.symm)] at this

theorem recheckLoop_get (f : String → ℚ) (cache : JsMap ℚ)
    (l : List (String × ℚ)) (hl : ∀ p ∈ l, p.2 = f p.1) (x : String) :
    ((recheckLoop cache l).2).get x
      = if x ∈ l.map Prod.fst then some (f x) else cache.get x := by
  induction l generalizing cache with
  | nil => simp [recheckLoop]
  | cons q rest ih =>
    obtain ⟨a, b⟩ := q
    have hb : b = f a := hl (a, b) (List.mem_cons_self _ _)
    have hrest : ∀ p ∈ rest, p.2 = f p.1 := fun p hp => hl p (List.mem_cons_of_mem _ hp)
    by_cases hc : cache.get a = some b
    · rw [show (recheckLoop cache ((a, b) :: rest)).2 = (recheckLoop cache rest).2 by
        simp [recheckLoop, hc]]
      rw [ih cache hrest]
      by_cases hx : x ∈ rest.map Prod.fst
      · simp [hx]
      · by_cases hax : x = a
        · subst hax
          simp [hx, hc, hb]
        · have hxa : ¬ a = x := fun h => hax h.symm
          simp [hx, hax, hxa]
    · rw [show (recheckLoop cache ((a, b) :: rest)).2 = (recheckLoop (cache.set a b) rest).2 by
        simp [recheckLoop, hc]]
      rw [ih (cache.set a b) hrest]
      by_cases hx : x ∈ rest.map Prod.fst
      · simp [hx]
      · by_cases hax : a = x
        · subst hax
          simp [hx, JsMap.get_set, hb]
        · have hxa : ¬ x = a := fun h => hax h.symm
          simp [hx, hax, hxa, JsMap.get_set]

theorem recheckLoop_of_cached (cache : JsMap ℚ) (l : List (String × ℚ))
    (h : ∀ p ∈ l, cache.get p.1 = some p.2) :
    recheckLoop cache l = ([], cache) := by
  induction l with
  | nil => simp [recheckLoop]
  | cons q rest ih =>
    obtain ⟨a, b⟩ := q
    have ha : cache.get a = some b := h (a, b) (List.mem_cons_self _ _)
    simp [recheckLoop, ha, ih (fun p hp => h p (List.mem_cons_of_mem _ hp))]

theorem getBalances_graph (rt : Runtime) (A : List String) :
    ∀ p ∈ getBalances rt A, p.2 = adjustedBalance rt p.1 := by
  intro p hp
  rcases JsMap.mem_foldl_set (adjustedBalance rt) A [] p hp with h | h
  · simp at h
  · exact h

/-- Claim C1: `recheckBalances(A)` notifies exactly the addresses whose
adjusted balance differs from the cached value (unchanged addresses are
dropped from the notification and their cache entry is untouched); running
it again on the resulting cache with an unchanged runtime produces no change
set and fires no notification, and an empty change set never fires. -/
theorem recheckBalances_diff_idempotent (rt : Runtime) (cache : JsMap ℚ)
    (A : List String) :
    (∀ p ∈ (recheckBalances rt cache A).1,
        p.2 = adjustedBalance rt p.1 ∧ cache.get p.1 ≠ some p.2) ∧
    (∀ x, cache.get x = some (adjustedBalance rt x) →
        x ∉ (recheckBalances rt cache A).1.map Prod.fst ∧
        ((recheckBalances rt cache A).2).get x = cache.get x) ∧
    recheckBalances rt ((recheckBalances rt cache A).2) A
      = ([], (recheckBalances rt cache A).2) ∧
    recheckNotification rt ((recheckBalances rt cache A).2) A = none ∧
    ((recheckBalances rt cache A).1 = [] → recheckNotification rt cache A = none) := by
  have hgraph := getBalances_graph rt A
  have hmem := recheckLoop_notif_mem (adjustedBalance rt) cache (getBalances rt A) hgraph
  have hsecond : recheckBalances rt ((recheckBalances rt cache A).2) A
      = ([], (recheckBalances rt cache A).2) := by
    have hcached : ∀ p ∈ getBalances rt A,
        ((recheckBalances rt cache A).2).get p.1 = some p.2 := by
      intro p hp
      have hx : p.1 ∈ (getBalances rt A).map Prod.fst := List.mem_map_of_mem Prod.fst hp
      have hget : ((recheckBalances rt cache A).2).get p.1
          = some (adjustedBalance rt p.1) := by
        unfold recheckBalances
        rw [recheckLoop_get (adjustedBalance rt) cache (getBalances rt A) hgraph p.1,
          if_pos hx]
      rw [hget, ← hgraph p hp]
    unfold recheckBalances
    exact recheckLoop_of_cached _ _ hcached
  refine ⟨?_, ?_, hsecond, ?_, ?_⟩
  · intro p hp
    exact ⟨hgraph p (hmem p hp).1, (hmem p hp).2⟩
  · intro x hx
    constructor
    · intro hmap
      rcases List.mem_map.mp hmap with ⟨p, hp, hpx⟩
      have h1 := hmem p hp
      have h2 := hgraph p h1.1
      rw [← hpx] at hx
      exact h1.2 (by rw [hx, h2])
    · unfold recheckBalances
      rw [recheckLoop_get (adjustedBalance rt) cache (getBalances rt A) hgraph x]
      by_cases hmem' : x ∈ (getBalances rt A).map Prod.fst
      · rw [if_pos hmem', hx]
      · rw [if_neg hmem']
  · unfold recheckNotification
    rw [show (recheckBalances rt ((recheckBalances rt cache A).2) A).1 = [] from by
      rw [hsecond]]
    simp
  · intro hempty
    unfold recheckNotification
    rw [hempty]
    simp

/-- Witness for C1 at a concrete runtime: address x, already cached at its
adjusted balance, is not notified again. -/
theorem recheckBalances_diff_idempotent_witness :
    "x" ∉ (recheckBalances rtFixture cacheFixture ["x"]).1.map Prod.fst :=
  ((recheckBalances_diff_idempotent rtFixture cacheFixture ["x"]).2.1 "x" rfl).1

/-- Claim C6: an address with no runtime account record has balance zero in
every revision of the balance retrieval: the adjusted balance is 0, the
fetched balances map holds 0 for it, and the early revision's `getBalance`
returns 0; none of these paths can fail. -/
theorem getBalance_missing_account (rt : Runtime) (rt0 : NanoNetworkApiV0.Runtime)
    (a : String) (A : List String)
    (h : rt.accounts a = none) (h0 : rt0.account a = none) (ha : a ∈ A) :
    adjustedBalance rt a = 0
    ∧ (getBalances rt A).get a = some 0
    ∧ NanoNetworkApiV0.getBalance rt0 a = 0 := by
  have hadj : adjustedBalance rt a = 0 := by
    unfold adjustedBalance
    rw [h]
  refine ⟨hadj, ?_, ?_⟩
  · unfold getBalances
    rw [JsMap.get_foldl_set (adjustedBalance rt) A [] a, if_pos ha, hadj]
  · unfold NanoNetworkApiV0.getBalance NanoNetworkApiV0.getAccountBalance
    rw [h0]
    simp

/-- Witness for C6 at a concrete runtime with no account records. -/
theorem getBalance_missing_account_witness :
    adjustedBalance rtEmptyFixture "z" = 0
    ∧ (getBalances rtEmptyFixture ["z"]).get "z" = some 0
    ∧ NanoNetworkApiV0.getBalance rt0Fixture "z" = 0 :=
  getBalance_missing_account rtEmptyFixture rt0Fixture "z" ["z"] rfl rfl
    (List.mem_singleton.mpr rfl)

end NanoNetworkApi

namespace NanoNetworkApi

/-! Helper lemmas about the duplicate-removal filter and the per-address
history resolution. -/

theorem dedupByHash_nodup (seen : List String) (l : List PlainTx) :
    ((dedupByHash seen l).map (fun t => t.hash)).Nodup
    ∧ ∀ t ∈ dedupByHash seen l, t.hash ∉ seen := by
  induction l generalizing seen with
  | nil => simp [dedupByHash]
  | cons tx rest ih =>
    by_cases h : tx.hash ∈ seen
    · simpa [dedupByHash, h] using ih seen
    · have ihh := ih (tx.hash :: seen)
      rw [show dedupByHash seen (tx :: rest)
          = tx :: dedupByHash (tx.hash :: seen) rest from by simp [dedupByHash, h]]
      refine ⟨?_, ?_⟩
      · rw [List.map_cons]
        refine List.nodup_cons.mpr ⟨?_, ihh.1⟩
        intro hmem
        rcases List.mem_map.mp hmem with ⟨u, hu, huh⟩
        exact (ihh.2 u hu) (huh ▸ List.mem_cons_self _ _)
      · intro t ht
        rcases List.mem_cons.mp ht with ht | ht
        · rw [ht]; exact h
        · intro hts
          exact (ihh.2 t ht) (List.mem_cons_of_mem _ hts)

theorem dedupByHash_sublist (seen : List String) (l : List PlainTx) :
    List.Sublist (dedupByHash seen l) l := by
  induction l generalizing seen with
  | nil => simp [dedupByHash]
  | cons tx rest ih =>
    by_cases h : tx.hash ∈ seen
    · rw [show dedupByHash seen (tx :: rest) = dedupByHash seen rest from by
        simp [dedupByHash, h]]
      exact List.Sublist.cons tx (ih seen)
    · rw [show dedupByHash seen (tx :: rest)
          = tx :: dedupByHash (tx.hash :: seen) rest from by simp [dedupByHash, h]]
      exact List.Sublist.cons₂ tx (ih (tx.hash :: seen))

theorem dedupByHash_first (seen : List String) (l : List PlainTx) :
    ∀ t ∈ dedupByHash seen l, l.find? (fun u => u.hash == t.hash) = some t := by
  induction l generalizing seen with
  | nil => simp [dedupByHash]
  | cons tx rest ih =>
    intro t ht
    by_cases h : tx.hash ∈ seen
    · have ht' : t ∈ dedupByHash seen rest := by simpa [dedupByHash, h] using ht
      have hne : ¬ (tx.hash == t.hash) = true := by
        rw [beq_iff_eq]
        intro he
        exact ((dedupByHash_nodup seen rest).2 t ht') (he ▸ h)
      rw [List.find?_cons_of_neg rest hne]
      exact ih seen t ht'
    · rcases List.mem_cons.mp (by
          simpa [dedupByHash, h] using ht :
          t ∈ tx :: dedupByHash (tx.hash :: seen) rest) with hteq | ht'
      · subst hteq
        exact List.find?_cons_of_pos rest (by rw [beq_iff_eq])
      · have hne : ¬ (tx.hash == t.hash) = true := by
          rw [beq_iff_eq]
          intro he
          exact ((dedupByHash_nodup (tx.hash :: seen) rest).2 t ht')
            (he ▸ List.mem_cons_self _ _)
        rw [List.find?_cons_of_neg rest hne]
        exact ih (tx.hash :: seen) t ht'

theorem addrHistory_sorted (c : Consensus) (address : String)
    (knownReceipts : JsMap String) (fromHeight : Nat) :
    List.Pairwise (fun t u : TxWithHeader => t.header.height ≤ u.header.height)
      (requestTransactionHistoryAddr c address knownReceipts fromHeight).transactions := by
  haveI : IsTotal TxWithHeader (fun t u => t.header.height ≤ u.header.height) :=
    ⟨fun t u => Nat.le_total _ _⟩
  haveI : IsTrans TxWithHeader (fun t u => t.header.height ≤ u.header.height) :=
    ⟨fun t u v h1 h2 => Nat.le_trans h1 h2⟩
  unfold requestTransactionHistoryAddr
  cases hfetch : fetchReceipts (c.requestTransactionReceipts address) with
  | none => simp
  | some receipts => exact List.sorted_insertionSort _ _

/-- Claim C2 (amended): the returned `newTransactions` never contain two
entries with the same hash; each returned entry is the first occurrence of
its hash in the concatenated pre-deduplication list (later occurrences are
dropped) and the result is a sublist of it; the transactions of a
single-address request are sorted ascending by block height.  (The
concatenation across several addresses is not globally sorted; see the
counterexample.) -/
theorem requestTransactionHistory_dedup_sorted (c : Consensus)
    (addresses : List String) (k : JsMap (JsMap String)) (fromHeight : Nat)
    (a : String) :
    ((requestTransactionHistoryList c addresses k fromHeight).newTransactions.map
        (fun t => t.hash)).Nodup
    ∧ List.Sublist
        (requestTransactionHistoryList c addresses k fromHeight).newTransactions
        (historyPlainConcat c addresses k fromHeight)
    ∧ (∀ t ∈ (requestTransactionHistoryList c addresses k fromHeight).newTransactions,
        (historyPlainConcat c addresses k fromHeight).find?
          (fun u => u.hash == t.hash) = some t)
    ∧ (addresses = [a] →
        List.Pairwise (fun t u : PlainTx => t.blockHeight ≤ u.blockHeight)
          (requestTransactionHistoryList c addresses k fromHeight).newTransactions) := by
  have hdef : (requestTransactionHistoryList c addresses k fromHeight).newTransactions
      = dedupByHash [] (historyPlainConcat c addresses k fromHeight) := rfl
  refine ⟨?_, ?_, ?_, ?_⟩
  · rw [hdef]; exact (dedupByHash_nodup [] _).1
  · rw [hdef]; exact dedupByHash_sublist [] _
  · rw [hdef]; exact fun t ht => dedupByHash_first [] _ t ht
  · intro ha
    subst ha
    rw [hdef]
    have hconcat : historyPlainConcat c [a] k fromHeight
        = ((requestTransactionHistoryAddr c a ((k.get a).getD [])
            fromHeight).transactions).map toPlainTx := by
      unfold historyPlainConcat
      simp
    have hmap : List.Pairwise (fun t u : PlainTx => t.blockHeight ≤ u.blockHeight)
        (historyPlainConcat c [a] k fromHeight) := by
      rw [hconcat, List.pairwise_map]
      exact addrHistory_sorted c a ((k.get a).getD []) fromHeight
    exact List.Pairwise.sublist (dedupByHash_sublist [] _) hmap

/-- Witness for C2's single-address ordering at a concrete environment. -/
theorem requestTransactionHistory_dedup_sorted_witness :
    List.Pairwise (fun t u : PlainTx => t.blockHeight ≤ u.blockHeight)
      (requestTransactionHistoryList consensusFixture ["a"] [] 0).newTransactions :=
  (requestTransactionHistory_dedup_sorted consensusFixture ["a"] [] 0 "a").2.2.2 rfl

/-- Counterexample to C2 as stated: a request over the two addresses a and b
returns transactions at heights 10 then 5, so the whole returned list is not
sorted ascending by block height. -/
theorem requestTransactionHistory_sorted_counterexample :
    ((requestTransactionHistoryList consensusFixture ["a", "b"] [] 0).newTransactions.map
      (fun t => t.blockHeight)) = [10, 5]
    ∧ ¬ List.Pairwise (fun t u : PlainTx => t.blockHeight ≤ u.blockHeight)
        (requestTransactionHistoryList consensusFixture ["a", "b"] [] 0).newTransactions := by
  decide

/-- Claim C4: for an address whose receipt fetch succeeded with `rs` (at most
the server cap many), `removedTxHashes` is non-empty only when strictly
fewer than the cap many receipts were returned; at the cap it is empty, and
below the cap it is exactly the known hashes absent from the fresh list. -/
theorem removedTransactions_cap (c : Consensus) (address : String)
    (knownReceipts : JsMap String) (fromHeight : Nat) (rs : List Receipt)
    (hfetch : fetchReceipts (c.requestTransactionReceipts address) = some rs)
    (hlen : rs.length ≤ RECEIPTS_MAX_COUNT) :
    ((requestTransactionHistoryAddr c address knownReceipts
        fromHeight).removedTxHashes ≠ [] → rs.length < RECEIPTS_MAX_COUNT)
    ∧ (rs.length = RECEIPTS_MAX_COUNT →
        (requestTransactionHistoryAddr c address knownReceipts
          fromHeight).removedTxHashes = [])
    ∧ (rs.length < RECEIPTS_MAX_COUNT →
        (requestTransactionHistoryAddr c address knownReceipts
            fromHeight).removedTxHashes
          = (knownReceipts.map Prod.fst).filter fun h =>
              !((rs.map fun r => r.transactionHash).contains h)) := by
  have hrem : (requestTransactionHistoryAddr c address knownReceipts
      fromHeight).removedTxHashes
      = if rs.length = RECEIPTS_MAX_COUNT then []
        else (knownReceipts.map Prod.fst).filter fun h =>
          !((rs.map fun r => r.transactionHash).contains h) := by
    unfold requestTransactionHistoryAddr
    rw [hfetch]
  refine ⟨?_, ?_, ?_⟩
  · intro hne
    rcases Nat.lt_or_ge rs.length RECEIPTS_MAX_COUNT with h | h
    · exact h
    · have heq : rs.length = RECEIPTS_MAX_COUNT := Nat.le_antisymm hlen h
      exact absurd (by rw [hrem, if_pos heq]) hne
  · intro heq
    rw [hrem, if_pos heq]
  · intro hlt
    rw [hrem, if_neg (Nat.ne_of_lt hlt)]

/-- Witness for C4: below the cap, the absent known hash old1 is reported
removed. -/
theorem removedTransactions_cap_witness :
    (requestTransactionHistoryAddr consensusFixtureRemoved "a"
      [("old1", "B9")] 0).removedTxHashes = ["old1"] :=
  ((removedTransactions_cap consensusFixtureRemoved "a" [("old1", "B9")] 0
    receiptsFixture rfl (by decide)).2.2 (by decide)).trans (by decide)

end NanoNetworkApi

/-! Retry policies (claim C5). -/

theorem getAccountsRetry_linear (g : Nat → Option (List NanoApiTs.Account)) :
    ∀ fuel sh res, NanoApiTs.getAccountsRetry g fuel sh = some res →
      res.2 = List.range' (sh + 1) res.2.length := by
  intro fuel
  induction fuel with
  | zero =>
    intro sh res h
    simp [NanoApiTs.getAccountsRetry] at h
  | succ n ih =>
    intro sh res h
    rw [show NanoApiTs.getAccountsRetry g (n + 1) sh
        = (match g sh with
          | some accounts => some (accounts, [])
          | none => (NanoApiTs.getAccountsRetry g n (sh + 1)).map
              fun r => (r.1, (sh + 1) :: r.2)) from rfl] at h
    cases hg : g sh with
    | some accounts =>
      rw [hg] at h
      rw [← Option.some.inj h]
      rfl
    | none =>
      rw [hg] at h
      rcases Option.map_eq_some'.mp h with ⟨r, hr, hres⟩
      rw [← hres]
      show (sh + 1) :: r.2 = List.range' (sh + 1) ((sh + 1) :: r.2).length
      rw [List.length_cons, List.range'_succ (sh + 1) r.2.length 1]
      exact congrArg (List.cons (sh + 1)) (ih (sh + 1) r hr)

theorem getAccountsRetry_unbounded (g : Nat → Option (List NanoApiTs.Account))
    (hg : ∀ i, g i = none) :
    ∀ fuel sh, NanoApiTs.getAccountsRetry g fuel sh = none := by
  intro fuel
  induction fuel with
  | zero => intro sh; rfl
  | succ n ih =>
    intro sh
    rw [show NanoApiTs.getAccountsRetry g (n + 1) sh
        = (match g sh with
          | some accounts => some (accounts, [])
          | none => (NanoApiTs.getAccountsRetry g n (sh + 1)).map
              fun r => (r.1, (sh + 1) :: r.2)) from rfl]
    rw [hg sh, ih (sh + 1)]
    rfl

/-- Claim C5 (amended): the account retrieval retry backs off linearly
(attempt N waits N seconds) but has no upper bound—if every attempt fails it
never produces a result, empty or otherwise—while the receipt fetch inside
the history request is the bounded path: it gives up after 3 attempts and
returns an empty result for that address (so the other addresses of a batch
still produce their own results), but its waits are a constant 1 second
each. -/
theorem retryPolicy_spec (g : Nat → Option (List NanoApiTs.Account))
    (fuel sh : Nat) (res : List NanoApiTs.Account × List Nat)
    (attempts : List (Option (List NanoNetworkApi.Receipt)))
    (c : NanoNetworkApi.Consensus) (address : String)
    (knownReceipts : JsMap String) (fromHeight : Nat) :
    (NanoApiTs.getAccountsRetry g fuel sh = some res →
      res.2 = List.range' (sh + 1) res.2.length)
    ∧ ((∀ i, g i = none) → NanoApiTs.getAccountsRetry g fuel sh = none)
    ∧ (NanoNetworkApi.fetchReceipts (c.requestTransactionReceipts address) = none →
        NanoNetworkApi.requestTransactionHistoryAddr c address knownReceipts fromHeight
          = ⟨[], [], []⟩)
    ∧ (∀ d ∈ NanoNetworkApi.receiptRetryDelays attempts, d = 1)
    ∧ (NanoNetworkApi.receiptRetryDelays attempts).length ≤ 3 := by
  refine ⟨getAccountsRetry_linear g fuel sh res,
    fun h => getAccountsRetry_unbounded g h fuel sh, ?_, ?_, ?_⟩
  · intro hnone
    unfold NanoNetworkApi.requestTransactionHistoryAddr
    rw [hnone]
  · intro d hd
    rcases List.mem_map.mp hd with ⟨x, hx, hxd⟩
    exact hxd.symm
  · unfold NanoNetworkApi.receiptRetryDelays
    rw [List.length_map]
    calc (List.takeWhile Option.isNone (attempts.take 3)).length
        ≤ (attempts.take 3).length :=
          List.Sublist.length_le (List.takeWhile_sublist _)
      _ ≤ 3 := by rw [List.length_take]; exact min_le_left _ _

/-- Witness for C5's amended statement: an account fetch that first succeeds
on its sixth attempt yields the linear delay trace 1,2,3,4,5. -/
theorem retryPolicy_spec_witness :
    (([], [1, 2, 3, 4, 5]) : List NanoApiTs.Account × List Nat).2
      = List.range' (0 + 1)
          (([], [1, 2, 3, 4, 5]) : List NanoApiTs.Account × List Nat).2.length :=
  (retryPolicy_spec oracleSixthTry 10 0 ([], [1, 2, 3, 4, 5]) []
    consensusFixture "a" [] 0).1 (by decide)

/-- Counterexample to C5 as stated: the bounded path (the receipt fetch)
waits a constant 1 second—after two failures the delay trace is [1, 1], not
[1, 2]—while the linearly backed-off account retrieval is unbounded: with a
permanently failing fetch it is still retrying after 5 attempts instead of
returning an empty result, and with a fetch that first succeeds on attempt 6
it performs 6 attempts, waiting 1,2,3,4,5 seconds. -/
theorem retryPolicy_counterexample :
    NanoNetworkApi.receiptRetryDelays [none, none, some []] = [1, 1]
    ∧ NanoApiTs.getAccountsRetry oracleAllFail 5 0 = none
    ∧ NanoApiTs.getAccountsRetry oracleSixthTry 10 0 = some ([], [1, 2, 3, 4, 5]) := by
  decide

/-! The pending debit (claim C3). -/

theorem pendingDebit_foldl (address : String) (txs : List NanoNetworkApi.PendingTx)
    (acc : ℚ) :
    txs.foldl
      (fun acc tx =>
        acc + satoshisToCoins (tx.value + tx.fee) * (if tx.sender = address then -1 else 0))
      acc
      = acc - satoshisToCoins (NanoApiTs.pendingDebit txs address) := by
  induction txs generalizing acc with
  | nil => simp [NanoApiTs.pendingDebit, satoshisToCoins]
  | cons tx rest ih =>
    by_cases h : tx.sender = address
    · rw [List.foldl_cons, if_pos h, ih]
      have hdebit : NanoApiTs.pendingDebit (tx :: rest) address
          = (tx.value + tx.fee) + NanoApiTs.pendingDebit rest address := by
        simp [NanoApiTs.pendingDebit, List.filter_cons, h]
      rw [hdebit]
      unfold satoshisToCoins
      push_cast
      ring
    · rw [List.foldl_cons, if_neg h, ih]
      have hdebit : NanoApiTs.pendingDebit (tx :: rest) address
          = NanoApiTs.pendingDebit rest address := by
        simp [NanoApiTs.pendingDebit, List.filter_cons, h]
      rw [hdebit]
      ring

theorem compatBalancesFetched_graph (cl : NanoApiTs.Client) (A : List String) :
    ∀ p ∈ NanoApiTs.compatBalancesFetched cl A, p.2 = NanoApiTs.compatBalance cl p.1 := by
  intro p hp
  rcases JsMap.mem_foldl_set (NanoApiTs.compatBalance cl) A [] p hp with h | h
  · simp at h
  · exact h

/-- Claim C3: the pending amount counts exactly the outgoing pending
transactions (sender = address) at value+fee each—incoming ones contribute
zero—and equals the negated converted Pending Debit; whenever the debit does
not exceed the on-chain balance, the displayed compat balance is exactly the
converted on-chain balance minus the converted debit; and every balance
entry the compat recheck notifies carries exactly this adjusted value. -/
theorem pendingDebit_correct (cl : NanoApiTs.Client) (a : String)
    (txs : List NanoNetworkApi.PendingTx) (cache : JsMap ℚ) (A : List String)
    (hp : cl.pendingTransactionsByAddress a = some txs)
    (hle : NanoApiTs.pendingDebit txs a ≤ cl.accountBalance a) :
    NanoApiTs.getPendingAmount cl a = - satoshisToCoins (NanoApiTs.pendingDebit txs a)
    ∧ NanoApiTs.pendingDebit txs a
        = ((txs.filter fun tx => tx.sender == a).map fun tx => tx.value + tx.fee).sum
    ∧ NanoApiTs.compatBalance cl a
        = satoshisToCoins (cl.accountBalance a)
          - satoshisToCoins (NanoApiTs.pendingDebit txs a)
    ∧ (∀ p ∈ (NanoApiTs.recheckCompat cl cache A).1,
        p.2 = NanoApiTs.compatBalance cl p.1) := by
  have hpend : NanoApiTs.getPendingAmount cl a
      = - satoshisToCoins (NanoApiTs.pendingDebit txs a) := by
    unfold NanoApiTs.getPendingAmount
    rw [hp]
    show txs.foldl
        (fun acc tx =>
          acc + satoshisToCoins (tx.value + tx.fee) * (if tx.sender = a then -1 else 0)) 0
      = - satoshisToCoins (NanoApiTs.pendingDebit txs a)
    rw [pendingDebit_foldl a txs 0]
    ring
  have hge : satoshisToCoins (NanoApiTs.pendingDebit txs a)
      ≤ satoshisToCoins (cl.accountBalance a) := by
    unfold satoshisToCoins
    have hcast : ((NanoApiTs.pendingDebit txs a : ℚ)) ≤ (cl.accountBalance a : ℚ) :=
      Nat.cast_le.mpr hle
    exact div_le_div_of_nonneg_right hcast (by norm_num)
  refine ⟨hpend, rfl, ?_, ?_⟩
  · unfold NanoApiTs.compatBalance
    rw [hpend,
      show satoshisToCoins (cl.accountBalance a)
          + -satoshisToCoins (NanoApiTs.pendingDebit txs a)
        = satoshisToCoins (cl.accountBalance a)
          - satoshisToCoins (NanoApiTs.pendingDebit txs a) from by ring]
    exact max_eq_right (sub_nonneg.mpr hge)
  · intro p hmem
    have h := NanoNetworkApi.recheckLoop_notif_mem (NanoApiTs.compatBalance cl)
      cache (NanoApiTs.compatBalancesFetched cl A)
      (compatBalancesFetched_graph cl A) p hmem
    exact compatBalancesFetched_graph cl A p h.1

/-- Witness for C3 at a concrete client: one outgoing pending transaction of
2 NIM + 1 NIM fee against a 10 NIM balance gives a displayed balance of
10 - 3 NIM. -/
theorem pendingDebit_correct_witness :
    NanoApiTs.compatBalance clientFixture "s"
      = satoshisToCoins (clientFixture.accountBalance "s")
        - satoshisToCoins (NanoApiTs.pendingDebit pendingFixture "s") :=
  (pendingDebit_correct clientFixture "s" pendingFixture [] [] rfl (by decide)).2.2.1

namespace ConsensusGate

/-! Helper lemmas about the consensus gate (claim C7). -/

theorem stepGate_resolved_mono (s : GateState) (e : ConsensusEvent) (g : Nat)
    (h : s.resolved g = true) : (stepGate s e).resolved g = true := by
  cases e with
  | connecting => by_cases hc : s.isEstablished <;> simp [stepGate, hc, h]
  | syncing => simpa [stepGate] using h
  | established =>
    simp only [stepGate]
    by_cases hg : g = s.gen <;> simp [hg, h]

theorem foldl_stepGate_mono (tail : List ConsensusEvent) (s : GateState) (g : Nat)
    (h : s.resolved g = true) : (tail.foldl stepGate s).resolved g = true := by
  induction tail generalizing s with
  | nil => simpa using h
  | cons e rest ih => exact ih (stepGate s e) (stepGate_resolved_mono s e g h)

/-- The gate invariant: when consensus is established the current promise is
resolved, and no promise generation beyond the current one is resolved. -/
def GateInv (s : GateState) : Prop :=
  (s.isEstablished = true → s.resolved s.gen = true)
  ∧ ∀ g, s.gen < g → s.resolved g = false

theorem gateInv_init : GateInv initGate :=
  ⟨by simp [initGate], fun _ _ => rfl⟩

theorem gateInv_step (s : GateState) (e : ConsensusEvent) (h : GateInv s) :
    GateInv (stepGate s e) := by
  cases e with
  | syncing => exact h
  | connecting =>
    by_cases hc : s.isEstablished
    · constructor
      · intro habs
        simp [stepGate, hc] at habs
      · intro g hg
        simp only [stepGate, hc, if_true] at hg ⊢
        exact h.2 g (Nat.lt_of_succ_lt hg)
    · simpa [stepGate, hc] using h
  | established =>
    constructor
    · intro _
      simp [stepGate]
    · intro g hg
      simp only [stepGate] at hg ⊢
      rw [if_neg (fun he : g = s.gen => absurd (he ▸ hg) (lt_irrefl _))]
      exact h.2 g hg

theorem gateInv_foldl (evs : List ConsensusEvent) (s : GateState) (h : GateInv s) :
    GateInv (evs.foldl stepGate s) := by
  induction evs generalizing s with
  | nil => simpa using h
  | cons e rest ih => exact ih (stepGate s e) (gateInv_step s e h)

theorem gateInv_run (evs : List ConsensusEvent) : GateInv (runGate evs) :=
  gateInv_foldl evs initGate gateInv_init

theorem stepGate_gen_change (s : GateState) (e : ConsensusEvent)
    (h : (stepGate s e).gen ≠ s.gen) :
    e = ConsensusEvent.connecting ∧ s.isEstablished = true := by
  cases e with
  | syncing => exact absurd rfl h
  | established => exact absurd rfl h
  | connecting =>
    by_cases hc : s.isEstablished
    · exact ⟨rfl, hc⟩
    · exact absurd (by simp [stepGate, hc]) h

/-- Claim C7: along any event trace, no promise generation beyond the
current one is ever resolved; a promise once resolved stays resolved under
any further events, so a caller that captured (awaited) an already-resolved
instance is never blocked again; the current promise is replaced only by a
connecting event arriving while consensus is established, at which point the
replaced promise had been resolved and the fresh one is unresolved; and
resolving on a repeated established event changes nothing (a promise
resolves at most once). -/
theorem consensusGate_spec (evs tail : List ConsensusEvent) (e : ConsensusEvent)
    (g : Nat) :
    ((runGate evs).gen < g → (runGate evs).resolved g = false)
    ∧ ((runGate evs).resolved (awaitGate (runGate evs)) = true →
        (runGate (evs ++ tail)).resolved (awaitGate (runGate evs)) = true)
    ∧ ((stepGate (runGate evs) e).gen ≠ (runGate evs).gen →
        e = ConsensusEvent.connecting
        ∧ (runGate evs).isEstablished = true
        ∧ (runGate evs).resolved ((runGate evs).gen) = true
        ∧ (stepGate (runGate evs) e).resolved ((stepGate (runGate evs) e).gen) = false)
    ∧ (∀ g', (stepGate (stepGate (runGate evs) ConsensusEvent.established)
          ConsensusEvent.established).resolved g'
        = (stepGate (runGate evs) ConsensusEvent.established).resolved g') := by
  refine ⟨(gateInv_run evs).2 g, ?_, ?_, ?_⟩
  · intro h
    rw [runGate, List.foldl_append]
    exact foldl_stepGate_mono tail _ _ h
  · intro h
    obtain ⟨he, hc⟩ := stepGate_gen_change (runGate evs) e h
    subst he
    refine ⟨rfl, hc, (gateInv_run evs).1 hc, ?_⟩
    simp only [stepGate, hc, if_true]
    exact (gateInv_run evs).2 _ (Nat.lt_succ_self _)
  · intro g'
    by_cases hg' : g' = (runGate evs).gen <;> simp [stepGate, hg']

/-- Witness for C7: after an established event, a caller that awaited the
initial promise observes it resolved even after a subsequent connecting
event re-arms the gate. -/
theorem consensusGate_spec_witness :
    (runGate ([ConsensusEvent.established] ++ [ConsensusEvent.connecting])).resolved
      (awaitGate (runGate [ConsensusEvent.established])) = true :=
  (consensusGate_spec [ConsensusEvent.established] [ConsensusEvent.connecting]
    ConsensusEvent.syncing 0).2.1 (by decide)

end ConsensusGate

namespace NanoApiV1

/-- Claim C8: the transaction shape is selected by fixed precedence—the
vesting flag first (even when a payload is also present), then non-empty
payload bytes, else a basic transfer—the selection is total (no combination
of inputs is an error), and a string payload is converted by the fixed UTF-8
encoding before classification. -/
theorem classifyTransaction_spec (txObj : TransactionObject) (s : String) :
    (txObj.isVesting = true → classifyTransaction txObj = TxShape.vesting)
    ∧ (txObj.isVesting = false →
        ∀ bs, normalizeExtraData txObj.extraData = some bs →
          classifyTransaction txObj
            = if bs.length > 0 then TxShape.extended else TxShape.basic)
    ∧ (txObj.isVesting = false → normalizeExtraData txObj.extraData = none →
        classifyTransaction txObj = TxShape.basic)
    ∧ normalizeExtraData (some (ExtraData.strPayload s))
        = some (stringToUtf8ByteArray s) := by
  refine ⟨?_, ?_, ?_, rfl⟩
  · intro h
    simp [classifyTransaction, h]
  · intro h bs hbs
    simp [classifyTransaction, h, hbs]
  · intro h hn
    simp [classifyTransaction, h, hn]

/-- Witness for C8: an input with both the vesting flag and a string payload
is classified as a vesting transaction. -/
theorem classifyTransaction_spec_witness :
    classifyTransaction txObjectFixture = TxShape.vesting :=
  (classifyTransaction_spec txObjectFixture "hi").1 rfl

end NanoApiV1

namespace SelfRelay

/-- Claim C9: `relayTransaction` records the transaction hash in the
self-relayed set, and does so before submitting; a pending-transaction event
for a hash in that set produces no action at all—no pending notification and
no balance recheck—while the transaction-relayed handler always fires its
notification. -/
theorem selfRelayed_suppression (s : WrapperState)
    (tx tx' : NanoNetworkApi.PendingTx) :
    tx.hash ∈ ((relayTransaction s tx).1).selfRelayedTransactionHashes
    ∧ (relayTransaction s tx).2
        = [WrapperAction.recordSelfRelayed tx.hash,
           WrapperAction.submitTransaction tx.hash]
    ∧ transactionAdded (relayTransaction s tx).1 tx = []
    ∧ (tx'.hash ∈ s.selfRelayedTransactionHashes → transactionAdded s tx' = [])
    ∧ WrapperAction.fireTransactionRelayed tx.hash ∈ transactionRelayed s tx := by
  refine ⟨List.mem_cons_self _ _, rfl, ?_, ?_, ?_⟩
  · simp [transactionAdded, relayTransaction]
  · intro h
    simp [transactionAdded, h]
  · simp [transactionRelayed]

/-- Witness for C9: a pending event for the already-recorded hash h1
produces no action. -/
theorem selfRelayed_suppression_witness :
    transactionAdded wrapperStateWithHash pendingTxFixture = [] :=
  (selfRelayed_suppression wrapperStateWithHash pendingTxFixture
    pendingTxFixture).2.2.2.1 (by decide)

end SelfRelay

namespace NanoNetworkApi

/-- Claim C10: for subscribe, getBalance and requestTransactionHistory,
passing a single address string is the same operation as passing the
one-element list: results and cache effects coincide. -/
theorem singleAddress_equiv (rt : Runtime) (cache : JsMap ℚ) (c : Consensus)
    (k : JsMap (JsMap String)) (fromHeight : Nat) (s : String) :
    subscribe rt cache (Sum.inl s) = subscribe rt cache (Sum.inr [s])
    ∧ getBalance rt cache (Sum.inl s) = getBalance rt cache (Sum.inr [s])
    ∧ requestTransactionHistory c (Sum.inl s) k fromHeight
        = requestTransactionHistory c (Sum.inr [s]) k fromHeight :=
  ⟨rfl, rfl, rfl⟩

end NanoNetworkApi
